import Mathlib

/-!
Shallow embedding of the logs_app proxy core pipeline
(`src/logtool/proxy/server.js`): JSON values, wildcard pattern matching,
the PII masking engine, the index allow-list guard, per-team feature
resolution, the recent-only query rewriter, the response cache, the
metrics store with the search handler's cache path, the alert scheduler,
and the export handler's guard sequence.  Each definition is translated
from the corresponding JavaScript function; theorems settle the frozen
claims about them.
-/

namespace LogsApp

/-- JSON values as manipulated by the proxy.  Numbers are modelled as
integers (every number the relevant code paths handle — counts, sizes,
thresholds, timestamps — is integral).  Objects are insertion-ordered
key/value lists, matching JavaScript object semantics. -/
inductive Json where
  | null : Json
  | bool (b : Bool) : Json
  | num (n : Int) : Json
  | str (s : String) : Json
  | arr (items : List Json) : Json
  | obj (fields : List (String × Json)) : Json
  deriving Repr

/-- JavaScript truthiness of a JSON value (`null`, `false`, `0`, `""` are
falsy; arrays and objects are always truthy). -/
def Json.truthy : Json → Bool
  | .null => false
  | .bool b => b
  | .num n => n != 0
  | .str s => s != ""
  | .arr _ => true
  | .obj _ => true

/-- Whether `typeof v === 'object'` holds in JavaScript for the value
(`null`, arrays and objects). -/
def Json.isObjectType : Json → Bool
  | .null => true
  | .arr _ => true
  | .obj _ => true
  | _ => false

/-- Property lookup on an object's field list (first occurrence wins,
like JavaScript's unique-key objects). -/
def getField : List (String × Json) → String → Option Json
  | [], _ => none
  | (k, v) :: rest, key => if k = key then some v else getField rest key

/-- Property assignment: replace the value in place when the key exists
(JavaScript keeps the original insertion position), otherwise append. -/
def setField : List (String × Json) → String → Json → List (String × Json)
  | [], key, v => [(key, v)]
  | (k, w) :: rest, key, v =>
    if k = key then (k, v) :: rest else (k, w) :: setField rest key v

/-- Characters stripped by JavaScript's `String.prototype.trim`
(ASCII whitespace plus the common Unicode space/line separators). -/
def jsTrimChar (c : Char) : Bool :=
  c == ' ' || c == '\t' || c == '\n' || c == '\r' ||
  c == Char.ofNat 0x0b || c == Char.ofNat 0x0c || c == Char.ofNat 0xA0 ||
  c == Char.ofNat 0xFEFF || c == Char.ofNat 0x2028 || c == Char.ofNat 0x2029

/-- Executable model of JavaScript's `trim()`: drop the whitespace
characters from both ends. -/
def trimChars (s : String) : String :=
  String.mk (((s.data.dropWhile jsTrimChar).reverse.dropWhile jsTrimChar).reverse)

/-- Whether a character is matched by JavaScript's regex `.`
(everything except the four line terminators). -/
def jsDotMatches (c : Char) : Bool :=
  !(c == '\n' || c == '\r' || c == Char.ofNat 0x2028 || c == Char.ofNat 0x2029)

/-- Suffixes of a string reachable by letting `.*` consume characters
from the front: the string itself, then what remains after each
dot-matchable character (a line terminator stops consumption, since
JavaScript's `.` cannot match it). -/
def dotSuffixes : List Char → List (List Char)
  | [] => [[]]
  | c :: s => (c :: s) :: (if jsDotMatches c then dotSuffixes s else [])

/-- Matching of `wildcardToRegex(pattern)` against a string: the code
splits the pattern on `*`, escapes each literal piece, joins with `.*`
and anchors with `^...$`.  Semantically the literal pieces must appear
in order, with each `*` consuming any run of non-line-terminator
characters (tried over every reachable suffix). -/
def globMatch : List Char → List Char → Bool
  | [], s => s.isEmpty
  | '*' :: ps, s => (dotSuffixes s).any fun t => globMatch ps t
  | _ :: _, [] => false
  | p :: ps, c :: s => p == c && globMatch ps s

/-- `wildcardToRegex(pattern).test(s)` from the proxy. -/
def wildcardMatches (pattern s : String) : Bool :=
  globMatch pattern.data s.data

/-- Resolved redaction action of a PII matcher (`buildPiiMatchers` folds
any action other than `hide` and `partial` into `mask`). -/
inductive PiiAction where
  | hide : PiiAction
  | mask : PiiAction
  | partialMask : PiiAction
  deriving DecidableEq, Repr

/-- Compiled PII matcher: the dot-path wildcard pattern together with its
normalized action (`buildPiiMatchers`). -/
structure PiiMatcher where
  pattern : String
  action : PiiAction
  deriving Repr

/-- Whether a matcher's compiled regex accepts a dotted path
(`matcher.regex.test(path)`). -/
def PiiMatcher.test (m : PiiMatcher) (path : String) : Bool :=
  wildcardMatches m.pattern path

/-- Raw PII rule from the policy snapshot (`appConfig.piiFieldRules`). -/
structure PiiRule where
  pattern : String
  action : String
  deriving Repr

/-- `buildPiiMatchers`: trim each rule's pattern, drop empty patterns,
and normalize the action (`hide` and `partial` kept, everything else
becomes `mask`). -/
def buildPiiMatchers (rules : List PiiRule) : List PiiMatcher :=
  rules.filterMap fun rule =>
    let pattern := trimChars rule.pattern
    if pattern = "" then none
    else
      some ⟨pattern,
        if rule.action = "hide" then .hide
        else if rule.action = "partial" then .partialMask
        else .mask⟩

/-- Loop body of `getPiiAction`: fold over the matchers carrying the
action resolved so far.  A matching `hide` returns immediately; `mask`
overwrites the accumulator; `partial` only sets it when no `mask` has
been recorded. -/
def getPiiActionGo (path : String) : List PiiMatcher → Option PiiAction → Option PiiAction
  | [], acc => acc
  | m :: rest, acc =>
    if m.test path then
      match m.action with
      | .hide => some .hide
      | .mask => getPiiActionGo path rest (some .mask)
      | .partialMask =>
        getPiiActionGo path rest (if acc = some .mask then acc else some .partialMask)
    else getPiiActionGo path rest acc

/-- `getPiiAction(path, matchers)` from the proxy. -/
def getPiiAction (path : String) (matchers : List PiiMatcher) : Option PiiAction :=
  getPiiActionGo path matchers none

/-- JavaScript `String(value)` for the scalar JSON values that reach
`partialMaskValue`. -/
def jsToString : Json → String
  | .null => "null"
  | .bool b => if b then "true" else "false"
  | .num n => toString n
  | .str s => s
  | .arr _ => ""
  | .obj _ => ""

/-- `partialMaskValue(value)`: `null` passes through, objects and arrays
become `"[masked]"`, and strings (after `String(value)` conversion) keep
boundary characters depending on their length. -/
def partialMaskValue (value : Json) : Json :=
  match value with
  | .null => .null
  | .obj _ => .str "[masked]"
  | .arr _ => .str "[masked]"
  | v =>
    let raw := jsToString v
    if raw.length = 0 then .str ""
    else if raw.length ≤ 2 then .str (String.mk (List.replicate raw.length '*'))
    else if raw.length ≤ 4 then
      .str (String.mk [raw.data.head!] ++ "***" ++ String.mk [raw.data.getLast!])
    else
      .str (String.mk (raw.data.take 2) ++ "***" ++ String.mk (raw.data.drop (raw.length - 2)))

/-- Child path construction used by `applyPiiRules`
(`path ? path + '.' + seg : seg`). -/
def childPath (path seg : String) : String :=
  if path = "" then seg else path ++ "." ++ seg

mutual

/-- `applyPiiRules(value, path, matchers)`: resolve the action at the
current path (`hide` removes the node — modelled as `none` —, `mask`
replaces it with `"[masked]"`, `partial` applies the partial mask), and
otherwise recurse into arrays and objects, dropping removed children. -/
def applyPiiRules (value : Json) (path : String) (matchers : List PiiMatcher) : Option Json :=
  match getPiiAction path matchers with
  | some .hide => none
  | some .mask => some (.str "[masked]")
  | some .partialMask => some (partialMaskValue value)
  | none =>
    match value with
    | .arr items => some (.arr (applyPiiRulesArr items path 0 matchers))
    | .obj fields => some (.obj (applyPiiRulesObj fields path matchers))
    | v => some v

/-- Array branch of `applyPiiRules`: indices are stringified as path
segments and removed elements are dropped. -/
def applyPiiRulesArr (items : List Json) (path : String) (idx : Nat)
    (matchers : List PiiMatcher) : List Json :=
  match items with
  | [] => []
  | v :: rest =>
    match applyPiiRules v (childPath path (toString idx)) matchers with
    | none => applyPiiRulesArr rest path (idx + 1) matchers
    | some r => r :: applyPiiRulesArr rest path (idx + 1) matchers

/-- Object branch of `applyPiiRules`: keys extend the dotted path and
removed fields are omitted from the rebuilt object. -/
def applyPiiRulesObj (fields : List (String × Json)) (path : String)
    (matchers : List PiiMatcher) : List (String × Json) :=
  match fields with
  | [] => []
  | (k, v) :: rest =>
    match applyPiiRules v (childPath path k) matchers with
    | none => applyPiiRulesObj rest path matchers
    | some r => (k, r) :: applyPiiRulesObj rest path matchers

end

/-- Identity of an authenticated caller (`req.user`). -/
structure UserInfo where
  id : String
  username : String
  role : String
  teams : List String
  deriving Repr

/-- Index-access part of the policy snapshot: per-user and per-team
allow patterns (`appConfig.userIndexAccess` / `appConfig.teamIndexAccess`,
absent entries modelled as `[]`). -/
structure AccessConfig where
  userIndexAccess : String → List String
  teamIndexAccess : String → List String

/-- `getAllowedIndexPatterns(user)`: admins resolve to the empty list;
otherwise the trimmed username's own non-empty pattern list wins, else
the concatenation of the user's team pattern lists. -/
def getAllowedIndexPatterns (cfg : AccessConfig) (user : Option UserInfo) : List String :=
  match user with
  | none => []
  | some u =>
    if u.role = "admin" then []
    else
      let username := trimChars u.username
      if username ≠ "" ∧ (cfg.userIndexAccess username) ≠ [] then
        cfg.userIndexAccess username
      else
        u.teams.flatMap cfg.teamIndexAccess

/-- `isIndexPatternAllowed(user, indexPattern)`: anonymous callers and
admins are always allowed; an empty resolved allow-list allows
everything; otherwise some allow pattern must match. -/
def isIndexPatternAllowed (cfg : AccessConfig) (user : Option UserInfo)
    (indexPattern : String) : Bool :=
  match user with
  | none => true
  | some u =>
    if u.role = "admin" then true
    else
      let allowed := getAllowedIndexPatterns cfg (some u)
      if allowed.length = 0 then true
      else allowed.any fun pattern => wildcardMatches pattern indexPattern

/-- Feature-toggle record for one team, and the effective feature set of
a caller. -/
structure Features where
  exports : Bool
  bookmarks : Bool
  rules : Bool
  queryBuilder : Bool
  limitTo7Days : Bool
  piiUnmasked : Bool
  showFullResults : Bool
  deriving DecidableEq, Repr

/-- Default toggles handed out when a team has no configured record
(everything granted, no restriction, PII masked). -/
def defaultToggles : Features :=
  ⟨true, true, true, true, false, false, false⟩

/-- All-false accumulator seed of `getUserFeatures`. -/
def emptyFeatures : Features :=
  ⟨false, false, false, false, false, false, false⟩

/-- `getTeamToggle(team)`: the empty team name and teams without a
configured record fall back to the defaults. -/
def getTeamToggle (toggles : String → Option Features) (team : String) : Features :=
  if team = "" then defaultToggles
  else (toggles team).getD defaultToggles

/-- Flag-wise OR of two feature records (the reducer body of
`getUserFeatures`). -/
def orFeatures (acc t : Features) : Features :=
  ⟨acc.exports || t.exports, acc.bookmarks || t.bookmarks,
   acc.rules || t.rules, acc.queryBuilder || t.queryBuilder,
   acc.limitTo7Days || t.limitTo7Days, acc.piiUnmasked || t.piiUnmasked,
   acc.showFullResults || t.showFullResults⟩

/-- `getUserFeatures(user)`: all-permissive when auth is disabled,
all-false for a missing user, otherwise every flag is OR-folded over the
caller's teams starting from the all-false record. -/
def getUserFeatures (authOn : Bool) (toggles : String → Option Features)
    (user : Option UserInfo) : Features :=
  if !authOn then defaultToggles
  else
    match user with
    | none => emptyFeatures
    | some u =>
      u.teams.foldl (fun acc team => orFeatures acc (getTeamToggle toggles team))
        emptyFeatures

/-- Per-pattern settings entry of the policy snapshot
(`appConfig.indexPatternSettings`). -/
structure IndexPatternSetting where
  pattern : String
  timeField : Option String
  deriving Repr

/-- `getIndexTimeFields(indexPattern)`: an exact-pattern settings entry
with a time field puts that field first, always followed by the two
defaults. -/
def getIndexTimeFields (settings : List IndexPatternSetting) (indexPattern : String) :
    List String :=
  match settings.find? (fun entry => entry.pattern = indexPattern) with
  | some entry =>
    match entry.timeField with
    | some tf => [tf, "timestamp", "@timestamp"]
    | none => ["timestamp", "@timestamp"]
  | none => ["timestamp", "@timestamp"]

/-- Range clause for one time field used by `buildRecentOnlyFilter`. -/
def rangeFor (cutoff field : String) : Json :=
  .obj [("range", .obj [(field, .obj [("gte", .str cutoff),
    ("format", .str "strict_date_optional_time")])])]

/-- `buildRecentOnlyFilter(indexPattern)` with the ISO cutoff
(`now − 7 days − 5 minutes`) passed explicitly: one range clause per
candidate time field, OR-combined under `bool.should` when there are
several. -/
def buildRecentOnlyFilter (settings : List IndexPatternSetting) (cutoff indexPattern : String) :
    Json :=
  let fields := getIndexTimeFields settings indexPattern
  match fields with
  | [f] => rangeFor cutoff f
  | _ =>
    .obj [("bool", .obj [("should", .arr (fields.map (rangeFor cutoff))),
      ("minimum_should_match", .num 1)])]

/-- JavaScript object spread of an array (`{ ...arr }`): decimal index
keys in order. -/
def spreadArr (items : List Json) : List (String × Json) :=
  items.enum.map fun p => (toString p.fst, p.snd)

/-- Field list produced by `{ ...query.bool }` (the guarding branch only
reaches objects and arrays). -/
def boolSpread : Json → List (String × Json)
  | .obj fields => fields
  | .arr items => spreadArr items
  | _ => []

/-- Filter rewriting inside the `bool` branch of
`applyRecentOnlyFilterToQuery`: append to an array filter, wrap a truthy
scalar filter into a pair, and otherwise install a fresh one-element
array. -/
def mergeRecentIntoBool (nextBool : List (String × Json)) (recentFilter : Json) :
    List (String × Json) :=
  match getField nextBool "filter" with
  | some (.arr xs) => setField nextBool "filter" (.arr (xs ++ [recentFilter]))
  | some v =>
    if v.truthy then setField nextBool "filter" (.arr [v, recentFilter])
    else setField nextBool "filter" (.arr [recentFilter])
  | none => setField nextBool "filter" (.arr [recentFilter])

/-- `applyRecentOnlyFilterToQuery(query, indexPattern)` with the recent
filter passed explicitly (`query` is `none` when the request body has no
query).  Non-objects are replaced by a fresh `bool.filter` wrapper, a
truthy object-typed `bool` member is merged into, and any other object
or array is wrapped under `bool.must`. -/
def applyRecentOnlyFilterToQuery (recentFilter : Json) (query : Option Json) : Json :=
  let wrapped : Json := .obj [("bool", .obj [("filter", .arr [recentFilter])])]
  match query with
  | none => wrapped
  | some q =>
    if !(q.truthy && q.isObjectType) then wrapped
    else
      match q with
      | .obj fields =>
        match getField fields "bool" with
        | some b =>
          if b.truthy && b.isObjectType then
            .obj (setField fields "bool" (.obj (mergeRecentIntoBool (boolSpread b) recentFilter)))
          else
            .obj [("bool", .obj [("must", .arr [q]), ("filter", .arr [recentFilter])])]
        | none =>
          .obj [("bool", .obj [("must", .arr [q]), ("filter", .arr [recentFilter])])]
      | _ => .obj [("bool", .obj [("must", .arr [q]), ("filter", .arr [recentFilter])])]

/-- Response-cache entry (`{ value, expiresAt }`). -/
structure CacheEntry where
  value : Json
  expiresAt : Int
  deriving Repr

/-- The response cache as an insertion-ordered key/entry list (the
JavaScript `Map`: first element = oldest insertion still present). -/
abbrev Cache := List (String × CacheEntry)

/-- Lookup in the insertion-ordered map. -/
def mapLookup : List (String × CacheEntry) → String → Option CacheEntry
  | [], _ => none
  | (k, e) :: rest, key => if k = key then some e else mapLookup rest key

/-- `Map.set`: overwrite in place when the key exists, else append. -/
def mapSet : List (String × CacheEntry) → String → CacheEntry → List (String × CacheEntry)
  | [], key, e => [(key, e)]
  | (k, e') :: rest, key, e =>
    if k = key then (k, e) :: rest else (k, e') :: mapSet rest key e

/-- `Map.delete`. -/
def mapDelete : List (String × CacheEntry) → String → List (String × CacheEntry)
  | [], _ => []
  | (k, e) :: rest, key => if k = key then rest else (k, e) :: mapDelete rest key

/-- `cacheGet(key)`: disabled cache (TTL 0) always misses; an expired
entry is deleted and misses; otherwise the stored value is returned.
The returned pair carries the possibly-updated map. -/
def cacheGet (ttlMs : Nat) (now : Int) (cache : Cache) (key : String) :
    Option Json × Cache :=
  if ttlMs = 0 then (none, cache)
  else
    match mapLookup cache key with
    | none => (none, cache)
    | some entry =>
      if now > entry.expiresAt then (none, mapDelete cache key)
      else (some entry.value, cache)

/-- `cacheSet(key, value)`: no-op when the cache is disabled, otherwise
store with the TTL deadline and evict the single oldest entry when the
size bound is exceeded. -/
def cacheSet (ttlMs : Nat) (maxEntries : Nat) (now : Int) (cache : Cache)
    (key : String) (value : Json) : Cache :=
  if ttlMs = 0 then cache
  else
    let next := mapSet cache key ⟨value, now + ttlMs⟩
    if next.length > maxEntries then next.tail else next

/-- `getCacheKey(parts)`: `parts.join('|')`. -/
def getCacheKey : List String → String
  | [] => ""
  | [p] => p
  | p :: rest => p ++ "|" ++ getCacheKey rest

/-- PII variant component of the search cache key
(`features.piiUnmasked ? 'pii-unmasked' : 'pii-masked'`). -/
def piiFlagStr (piiUnmasked : Bool) : String :=
  if piiUnmasked then "pii-unmasked" else "pii-masked"

/-- Cache key computed by the search handler: operation name, caller
scope (user id or `public`), index pattern, PII variant, serialized PII
rule list, serialized effective body. -/
def searchCacheKey (userKey indexPattern : String) (piiUnmasked : Bool)
    (rulesSerialized bodySerialized : String) : String :=
  getCacheKey ["search", userKey, indexPattern, piiFlagStr piiUnmasked,
    rulesSerialized, bodySerialized]

/-- Per-day metrics bucket (`metrics.byDate[dayKey]`). -/
structure DayBucket where
  searches : Nat
  exports : Nat
  queries : String → Nat
  ips : String → Nat
  users : String → Nat
  exportsByFormat : String → Nat

/-- Fresh day bucket installed on first use. -/
def emptyDayBucket : DayBucket :=
  ⟨0, 0, fun _ => 0, fun _ => 0, fun _ => 0, fun _ => 0⟩

/-- Per-hour totals (`metrics.hourlyTotals[hourKey]`). -/
structure HourTotals where
  searches : Nat
  exports : Nat
  deriving Repr

/-- Activity-feed entry appended by `logActivity`. -/
structure ActivityEntry where
  time : String
  type : String
  query : String
  format : String
  size : Nat
  indexPattern : String
  user : String
  ip : String
  message : String
  deriving Repr

/-- The metrics store: day buckets, hourly per-query counts, hourly
totals, and the capped most-recent-first activity feed. -/
structure Metrics where
  byDate : String → Option DayBucket
  hourlyQueries : String → String → Nat
  hourlyTotals : String → Option HourTotals
  activity : List ActivityEntry

/-- Pointwise update of a string-keyed counter map. -/
def bump (f : String → Nat) (key : String) : String → Nat :=
  fun s => if s = key then f key + 1 else f s

/-- `logActivity(type, meta)`: unshift the entry and cap the feed at 500
entries. -/
def logActivity (m : Metrics) (entry : ActivityEntry) : Metrics :=
  { m with activity := (entry :: m.activity).take 500 }

/-- `recordSearch(query, ip, meta)`: bump the day bucket's search and
per-query/ip/user counters, the hourly per-query count, the hourly
search total, and log a `search` activity entry.  `nowIso`, `dayKey` and
`hourKey` stand for the wall-clock derived strings. -/
def recordSearch (nowIso dayKey hourKey : String) (query ip userMeta indexPattern : String)
    (m : Metrics) : Metrics :=
  let day := (m.byDate dayKey).getD emptyDayBucket
  let q := if query = "" then "(match_all)" else query
  let userKey := if userMeta = "" then "public" else userMeta
  let day' : DayBucket :=
    { day with
      searches := day.searches + 1
      queries := bump day.queries q
      ips := if ip ≠ "" then bump day.ips ip else day.ips
      users := bump day.users userKey }
  let hourBucket := m.hourlyQueries hourKey
  let hourTotals := (m.hourlyTotals hourKey).getD ⟨0, 0⟩
  let m' : Metrics :=
    { m with
      byDate := fun s => if s = dayKey then some day' else m.byDate s
      hourlyQueries := fun s => if s = hourKey then bump hourBucket q else m.hourlyQueries s
      hourlyTotals := fun s =>
        if s = hourKey then some ⟨hourTotals.searches + 1, hourTotals.exports⟩
        else m.hourlyTotals s }
  logActivity m' ⟨nowIso, "search", q, "", 0, indexPattern, userKey, ip, ""⟩

mutual

/-- `extractQueryString(body)`: a string-valued `query_string.query`
member wins; otherwise the first non-empty result found by a depth-first
scan over object- or array-valued members. -/
def extractQueryString (body : Json) : String :=
  match body with
  | .obj fields =>
    match getField fields "query_string" with
    | some (.obj qf) =>
      match getField qf "query" with
      | some (.str s) => s
      | _ => extractQueryStringFields fields
    | _ => extractQueryStringFields fields
  | .arr items => extractQueryStringList items
  | _ => ""

/-- Scan of an object's member values for a query string. -/
def extractQueryStringFields (fields : List (String × Json)) : String :=
  match fields with
  | [] => ""
  | (_, v) :: rest =>
    if v.truthy && v.isObjectType then
      let r := extractQueryString v
      if r ≠ "" then r else extractQueryStringFields rest
    else extractQueryStringFields rest

/-- Scan of an array's elements for a query string. -/
def extractQueryStringList (vals : List Json) : String :=
  match vals with
  | [] => ""
  | v :: rest =>
    if v.truthy && v.isObjectType then
      let r := extractQueryString v
      if r ≠ "" then r else extractQueryStringList rest
    else extractQueryStringList rest

end

/-- Outcome of the search handler: HTTP status, JSON response, updated
metrics and cache, and the number of upstream search-engine calls made. -/
structure SearchOutcome where
  status : Nat
  response : Option Json
  metrics : Metrics
  cache : Cache
  upstreamCalls : Nat

/-- In-memory environment the search handler reads. -/
structure SearchEnv where
  authOn : Bool
  access : AccessConfig
  toggles : String → Option Features
  settings : List IndexPatternSetting
  piiMatchers : List PiiMatcher
  piiRulesSerialized : String
  cacheTtlMs : Nat
  cacheMaxEntries : Nat

/-- `maskSearchResponse` restricted to what the handler needs: the model
keeps the upstream response abstract and masks it with `applyPiiRules`
when it carries hits (the shape-preserving rebuild of
`applyPiiRulesToHits` is exercised separately through `applyPiiRules`). -/
def maskUpstream (piiUnmasked : Bool) (matchers : List PiiMatcher) (data : Json) : Json :=
  if piiUnmasked then data
  else
    match applyPiiRules data "" matchers with
    | some r => r
    | none => .obj []

/-- `POST /api/search/:indexPattern/_search` up to the response: allow
check, recent-only rewrite, cache-key computation, cache probe with
early return, and otherwise one upstream call followed by
`recordSearch`, masking, and `cacheSet`.  `serialize` stands for
`JSON.stringify`, `upstream` for the engine's response, and the
wall-clock strings are passed explicitly. -/
def searchUserKey (authOn : Bool) (user : Option UserInfo) : String :=
  match authOn, user with
  | true, some u => u.id
  | _, _ => "public"

/-- Effective feature record used by the search handler
(`authEnabled() && req.user ? getUserFeatures(req.user) : {...false}`). -/
def searchFeatures (env : SearchEnv) (user : Option UserInfo) : Features :=
  match env.authOn, user with
  | true, some _ => getUserFeatures env.authOn env.toggles user
  | _, _ => { emptyFeatures with limitTo7Days := false, piiUnmasked := false }

/-- Effective body sent upstream: the recent-only rewrite of the query
member when `limitTo7Days` is in force, the raw body otherwise. -/
def searchEffectiveBody (env : SearchEnv) (cutoff : String) (user : Option UserInfo)
    (indexPattern : String) (body : Option Json) : Option Json :=
  let query := body.bind fun b =>
    match b with
    | .obj fields => getField fields "query"
    | _ => none
  if (searchFeatures env user).limitTo7Days then
    let recent := buildRecentOnlyFilter env.settings cutoff indexPattern
    match body with
    | some (.obj fields) =>
      some (.obj (setField fields "query" (applyRecentOnlyFilterToQuery recent query)))
    | _ => some (.obj [("query", applyRecentOnlyFilterToQuery recent query)])
  else body

/-- The cache key the search handler computes for a request. -/
def searchRequestCacheKey (env : SearchEnv) (serialize : Option Json → String)
    (cutoff : String) (user : Option UserInfo) (indexPattern : String)
    (body : Option Json) : String :=
  searchCacheKey (searchUserKey env.authOn user) indexPattern
    (searchFeatures env user).piiUnmasked env.piiRulesSerialized
    (serialize (searchEffectiveBody env cutoff user indexPattern body))

def searchHandler (env : SearchEnv) (serialize : Option Json → String)
    (now : Int) (nowIso dayKey hourKey cutoff : String)
    (user : Option UserInfo) (indexPattern : String) (body : Option Json)
    (ip : String) (upstream : Json) (m : Metrics) (cache : Cache) : SearchOutcome :=
  let features := searchFeatures env user
  if env.authOn ∧ user.isSome ∧ ¬ isIndexPatternAllowed env.access user indexPattern then
    ⟨403, none, m, cache, 0⟩
  else
    match cacheGet env.cacheTtlMs now cache
        (searchRequestCacheKey env serialize cutoff user indexPattern body) with
    | (some cached, cache') => ⟨200, some cached, m, cache', 0⟩
    | (none, cache') =>
      let qs := extractQueryString (body.getD .null)
      let userMeta := match user with
        | some u => u.username
        | none => "public"
      let m' := recordSearch nowIso dayKey hourKey qs ip userMeta indexPattern m
      let masked := maskUpstream features.piiUnmasked env.piiMatchers upstream
      let cache'' := cacheSet env.cacheTtlMs env.cacheMaxEntries now cache'
        (searchRequestCacheKey env serialize cutoff user indexPattern body) masked
      ⟨200, some masked, m', cache'', 1⟩

/-- `getQueryCountSince(query, windowMinutes)`: sum the per-hour match
counts of the query over `ceil(windowMinutes/60)` trailing hour buckets.
`hourKeyOf` stands for `getHourKey` applied to the truncated hour
(`nowHour` is the hour index of the evaluation instant, i.e.
`now / 3600000`; bucket `i` is the hour `nowHour − i`). -/
def getQueryCountSince (hourKeyOf : Nat → String) (m : Metrics) (nowHour : Nat)
    (query : String) (windowMinutes : Nat) : Nat :=
  let buckets := (windowMinutes + 59) / 60
  (List.range buckets).foldl
    (fun count i => count + m.hourlyQueries (hourKeyOf (nowHour - i)) query) 0

/-- Alert rule after `normalizeRules` (numeric threshold and window,
trimmed strings; a missing email is the empty string). -/
structure AlertRule where
  id : String
  name : String
  query : String
  threshold : Int
  windowMinutes : Nat
  team : String
  email : String
  deriving Repr

/-- De-dup state (`rulesState.lastTriggeredAt`), with fire instants in
epoch milliseconds. -/
def RulesState := String → Option Nat

/-- Fire decision of one iteration of `runRuleChecks`: the guards
(`!query`, non-finite or sub-1 threshold) skip the rule, a zero window
falls back to 60 minutes, and the rule fires when the windowed count
strictly exceeds the threshold and no previous fire lies within the
window. -/
def ruleShouldFire (hourKeyOf : Nat → String) (m : Metrics) (now : Nat)
    (state : RulesState) (r : AlertRule) : Bool :=
  let query := trimChars r.query
  let windowMinutes := if r.windowMinutes = 0 then 60 else r.windowMinutes
  if query = "" ∨ r.threshold < 1 then false
  else
    let count := getQueryCountSince hourKeyOf m (now / 3600000) query windowMinutes
    let withinWindow :=
      match state r.id with
      | none => false
      | some last => decide (now - last < windowMinutes * 60 * 1000)
    decide ((count : Int) > r.threshold) && !withinWindow

/-- Email settings `sendAlertEmail` reads (config with environment
fallbacks folded in). -/
structure EmailConfig where
  smtpHost : String
  alertEmailTo : String
  alertEmailFrom : String
  deriving Repr

/-- Recipient resolution of `runRuleChecks`/`sendAlertEmail`: a rule's
own address wins over the configured default. -/
def effectiveTo (cfg : EmailConfig) (r : AlertRule) : String :=
  if trimChars r.email ≠ "" then trimChars r.email else cfg.alertEmailTo

/-- Result of `sendAlertEmail`: missing host/to/from settings skip the
send and resolve to `false`; otherwise the transport either delivers
(`true`) or throws (modelled as `Except.error`). -/
def sendAlertEmailResult (cfg : EmailConfig) (toAddr : String) (transportOk : Bool) :
    Except Unit Bool :=
  if cfg.smtpHost = "" ∨ toAddr = "" ∨ cfg.alertEmailFrom = "" then .ok false
  else if transportOk then .ok true else .error ()

/-- One iteration of the `runRuleChecks` loop over a single rule: when
the rule fires, the send is attempted; a thrown transport error is
caught and leaves the state alone, while any resolved send (including
the skipped-settings `false`) advances `lastTriggeredAt[rule.id]` to
now. -/
def runRuleStep (hourKeyOf : Nat → String) (m : Metrics) (now : Nat)
    (cfg : EmailConfig) (transportOk : String → Bool) (state : RulesState)
    (r : AlertRule) : RulesState :=
  if ruleShouldFire hourKeyOf m now state r then
    match sendAlertEmailResult cfg (effectiveTo cfg r) (transportOk r.id) with
    | .error _ => state
    | .ok _ => fun id => if id = r.id then some now else state id
  else state

/-- `runRuleChecks()`: evaluate every configured rule in order; each
rule's send is individually guarded, so the loop always reaches the
remaining rules. -/
def runRuleChecks (hourKeyOf : Nat → String) (m : Metrics) (now : Nat)
    (cfg : EmailConfig) (transportOk : String → Bool) (rules : List AlertRule)
    (state : RulesState) : RulesState :=
  rules.foldl (runRuleStep hourKeyOf m now cfg transportOk) state

/-- Decision taken by `POST /api/export/:format` before the try block:
the guards run in source order and the whole scroll/stream/record
pipeline (headers, gzip, upstream searches, `recordExport`) lives only
behind `proceed`. -/
inductive ExportDecision where
  | unauthorized : ExportDecision
  | featureDisabled : ExportDecision
  | indexNotAllowed : ExportDecision
  | sizeTooLarge : ExportDecision
  | proceed : ExportDecision
  deriving DecidableEq, Repr

/-- Guard sequence of the export handler: auth, exports feature, index
allow-list, then the size ceiling (`size > appConfig.maxExportSize`,
with a missing size defaulting to the ceiling itself). -/
def exportDecision (authOn : Bool) (toggles : String → Option Features)
    (access : AccessConfig) (user : Option UserInfo) (indexPattern : String)
    (size : Option Int) (maxExportSize : Int) : ExportDecision :=
  let features := match authOn, user with
    | true, some _ => getUserFeatures authOn toggles user
    | _, _ => emptyFeatures
  if authOn && user.isNone then .unauthorized
  else if authOn && !features.exports then .featureDisabled
  else if authOn && !(isIndexPatternAllowed access user indexPattern) then .indexNotAllowed
  else if size.getD maxExportSize > maxExportSize then .sizeTooLarge
  else .proceed

/-- HTTP status of a rejecting export decision (`proceed` streams and
has no early status). -/
def exportStatus : ExportDecision → Option Nat
  | .unauthorized => some 401
  | .featureDisabled => some 403
  | .indexNotAllowed => some 403
  | .sizeTooLarge => some 400
  | .proceed => none

/-- Number of upstream search-engine requests issued before anything
else can fail: only the `proceed` branch reaches the initial scroll
search inside the try block. -/
def exportUpstreamSearches : ExportDecision → Nat
  | .proceed => 1
  | _ => 0

/-- Whether `recordExport` can run (it is called only on the two
successful paths inside the try block). -/
def exportRecordsMetrics : ExportDecision → Bool
  | .proceed => true
  | _ => false

/-- Whether response streaming starts (headers and the gzip pipe are set
up only inside the try block). -/
def exportStartsStreaming : ExportDecision → Bool
  | .proceed => true
  | _ => false

lemma getPiiActionGo_hide (path : String) (ms : List PiiMatcher) :
    ∀ acc : Option PiiAction,
      (∃ m ∈ ms, m.test path = true ∧ m.action = .hide) →
      getPiiActionGo path ms acc = some .hide := by
  induction ms with
  | nil => intro acc h; simp at h
  | cons m rest ih =>
    intro acc h
    unfold getPiiActionGo
    by_cases ht : m.test path
    · rw [if_pos ht]
      cases hma : m.action with
      | hide => rfl
      | mask =>
        apply ih
        rcases h with ⟨m', hm', h1, h2⟩
        rcases List.mem_cons.mp hm' with rfl | hmem
        · rw [hma] at h2; cases h2
        · exact ⟨m', hmem, h1, h2⟩
      | partialMask =>
        apply ih
        rcases h with ⟨m', hm', h1, h2⟩
        rcases List.mem_cons.mp hm' with rfl | hmem
        · rw [hma] at h2; cases h2
        · exact ⟨m', hmem, h1, h2⟩
    · rw [if_neg ht]
      apply ih
      rcases h with ⟨m', hm', h1, h2⟩
      rcases List.mem_cons.mp hm' with rfl | hmem
      · exact absurd h1 ht
      · exact ⟨m', hmem, h1, h2⟩

lemma getPiiActionGo_mask_stable (path : String) (ms : List PiiMatcher)
    (hnh : ∀ m ∈ ms, m.test path = true → m.action ≠ .hide) :
    getPiiActionGo path ms (some .mask) = some .mask := by
  induction ms with
  | nil => rfl
  | cons m rest ih =>
    have hrest : ∀ m' ∈ rest, m'.test path = true → m'.action ≠ .hide :=
      fun m' hm' => hnh m' (List.mem_cons_of_mem m hm')
    unfold getPiiActionGo
    by_cases ht : m.test path
    · rw [if_pos ht]
      cases hma : m.action with
      | hide => exact absurd hma (hnh m (List.mem_cons_self m rest) ht)
      | mask => exact ih hrest
      | partialMask => simp only [if_pos rfl]; exact ih hrest
    · rw [if_neg ht]; exact ih hrest

lemma getPiiActionGo_mask (path : String) (ms : List PiiMatcher) :
    ∀ acc : Option PiiAction,
      (∀ m ∈ ms, m.test path = true → m.action ≠ .hide) →
      (∃ m ∈ ms, m.test path = true ∧ m.action = .mask) →
      getPiiActionGo path ms acc = some .mask := by
  induction ms with
  | nil => intro acc _ h; simp at h
  | cons m rest ih =>
    intro acc hnh hex
    have hrest : ∀ m' ∈ rest, m'.test path = true → m'.action ≠ .hide :=
      fun m' hm' => hnh m' (List.mem_cons_of_mem m hm')
    unfold getPiiActionGo
    by_cases ht : m.test path
    · rw [if_pos ht]
      cases hma : m.action with
      | hide => exact absurd hma (hnh m (List.mem_cons_self m rest) ht)
      | mask => exact getPiiActionGo_mask_stable path rest hrest
      | partialMask =>
        apply ih _ hrest
        rcases hex with ⟨m', hm', h1, h2⟩
        rcases List.mem_cons.mp hm' with rfl | hmem
        · rw [hma] at h2; cases h2
        · exact ⟨m', hmem, h1, h2⟩
    · rw [if_neg ht]
      apply ih _ hrest
      rcases hex with ⟨m', hm', h1, h2⟩
      rcases List.mem_cons.mp hm' with rfl | hmem
      · exact absurd h1 ht
      · exact ⟨m', hmem, h1, h2⟩

lemma applyPiiRules_hide (value : Json) (path : String) (ms : List PiiMatcher)
    (h : getPiiAction path ms = some .hide) :
    applyPiiRules value path ms = none := by
  cases value <;> rw [applyPiiRules, h] <;> simp

lemma applyPiiRules_mask (value : Json) (path : String) (ms : List PiiMatcher)
    (h : getPiiAction path ms = some .mask) :
    applyPiiRules value path ms = some (.str "[masked]") := by
  cases value <;> rw [applyPiiRules, h] <;> simp

lemma applyPiiRulesObj_not_mem (p k : String) (ms : List PiiMatcher)
    (h : getPiiAction (childPath p k) ms = some .hide) :
    ∀ fields : List (String × Json),
      k ∉ (applyPiiRulesObj fields p ms).map Prod.fst := by
  intro fields
  induction fields with
  | nil => simp [applyPiiRulesObj]
  | cons kv rest ih =>
    obtain ⟨k', v⟩ := kv
    unfold applyPiiRulesObj
    by_cases hk : k' = k
    · subst hk
      rw [applyPiiRules_hide v _ ms h]
      exact ih
    · cases hres : applyPiiRules v (childPath p k') ms with
      | none => exact ih
      | some r =>
        simp only [List.map_cons, List.mem_cons]
        rintro (rfl | hmem)
        · exact hk rfl
        · exact ih hmem

/-- C2: when several PII rules match a path, `hide` always wins (and the
field is dropped from the rebuilt parent object); with no matching
`hide`, any matching `mask` wins regardless of matching `partial` rules
and of declaration order, and the value becomes the literal
`"[masked]"`. -/
theorem pii_masking_precedence (path : String) (matchers : List PiiMatcher) (value : Json)
    (fields : List (String × Json)) (containerPath k : String) :
    ((∃ m ∈ matchers, m.test path = true ∧ m.action = .hide) →
        getPiiAction path matchers = some .hide) ∧
    ((∀ m ∈ matchers, m.test path = true → m.action ≠ .hide) →
      (∃ m ∈ matchers, m.test path = true ∧ m.action = .mask) →
        getPiiAction path matchers = some .mask) ∧
    (getPiiAction path matchers = some .hide →
        applyPiiRules value path matchers = none) ∧
    (getPiiAction path matchers = some .mask →
        applyPiiRules value path matchers = some (.str "[masked]")) ∧
    (getPiiAction (childPath containerPath k) matchers = some .hide →
        k ∉ (applyPiiRulesObj fields containerPath matchers).map Prod.fst) := by
  refine ⟨?_, ?_, ?_, ?_, ?_⟩
  · exact getPiiActionGo_hide path matchers none
  · exact getPiiActionGo_mask path matchers none
  · exact applyPiiRules_hide value path matchers
  · exact applyPiiRules_mask value path matchers
  · intro h
    exact applyPiiRulesObj_not_mem containerPath k matchers h fields

/-- Witness for C2 at a concrete overlap: on path `user.email`, a
`partial` rule declared first, a `mask` rule second and another
`partial` rule third still resolve to `mask`, and the value becomes
`"[masked]"`. -/
theorem pii_masking_precedence_witness :
    getPiiAction "user.email"
        [⟨"user.*", .partialMask⟩, ⟨"user.email", .mask⟩, ⟨"user.em*", .partialMask⟩] =
      some .mask ∧
    applyPiiRules (.str "a@b.com") "user.email"
        [⟨"user.*", .partialMask⟩, ⟨"user.email", .mask⟩, ⟨"user.em*", .partialMask⟩] =
      some (.str "[masked]") := by
  have h2 := (pii_masking_precedence "user.email"
    [⟨"user.*", .partialMask⟩, ⟨"user.email", .mask⟩, ⟨"user.em*", .partialMask⟩]
    (.str "a@b.com") [] "" "").2.1
    (by decide) ⟨⟨"user.email", .mask⟩, by simp, by decide, rfl⟩
  have h4 := (pii_masking_precedence "user.email"
    [⟨"user.*", .partialMask⟩, ⟨"user.email", .mask⟩, ⟨"user.em*", .partialMask⟩]
    (.str "a@b.com") [] "" "").2.2.2.1 h2
  exact ⟨h2, h4⟩

/-- C6: boundary behavior of the partial mask: the empty string stays
empty, strings of length at most 2 become that many asterisks, lengths
3–4 keep the first and last character around `***`, longer strings keep
two characters on each side, and non-scalar values become `"[masked]"`. -/
theorem partial_masking_boundary_values :
    (partialMaskValue (.str "") = .str "") ∧
    (∀ s : String, s.length ≤ 2 →
      partialMaskValue (.str s) = .str (String.mk (List.replicate s.length '*'))) ∧
    (partialMaskValue (.str "ab") = .str "**") ∧
    (∀ s : String, 3 ≤ s.length → s.length ≤ 4 →
      partialMaskValue (.str s) =
        .str (String.mk [s.data.head!] ++ "***" ++ String.mk [s.data.getLast!])) ∧
    (partialMaskValue (.str "abcd") = .str "a***d") ∧
    (∀ s : String, 5 ≤ s.length →
      partialMaskValue (.str s) =
        .str (String.mk (s.data.take 2) ++ "***" ++ String.mk (s.data.drop (s.length - 2)))) ∧
    (partialMaskValue (.str "abcdef") = .str "ab***ef") ∧
    (∀ items, partialMaskValue (.arr items) = .str "[masked]") ∧
    (∀ fields, partialMaskValue (.obj fields) = .str "[masked]") := by
  refine ⟨rfl, ?_, rfl, ?_, rfl, ?_, rfl, fun items => rfl,
    fun fields => rfl⟩
  · intro s h
    simp only [partialMaskValue, jsToString]
    by_cases h0 : s.length = 0
    · rw [if_pos h0]
      have : s.length = 0 := h0
      simp [this]
    · rw [if_neg h0, if_pos h]
  · intro s h3 h4
    simp only [partialMaskValue, jsToString]
    rw [if_neg (by omega), if_neg (by omega), if_pos h4]
  · intro s h5
    simp only [partialMaskValue, jsToString]
    rw [if_neg (by omega), if_neg (by omega), if_neg (by omega)]

/-- Witness for C6 at the concrete length-3 string `abc`. -/
theorem partial_masking_boundary_values_witness :
    partialMaskValue (.str "abc") = .str "a***c" := by
  have h := (partial_masking_boundary_values).2.2.2.1 "abc" (by decide) (by decide)
  rw [h]
  rfl

/-- C3: the index allow-list is fail-open with any-pattern matching:
anonymous callers and admins are always allowed; a non-admin resolves to
the user-specific list when non-empty, else the union of team lists; an
empty resolved list allows every index pattern, and a non-empty one
allows a pattern exactly when some allow pattern glob-matches it
(`logs-*` accepts `logs-app` and rejects `other-*`). -/
theorem index_allow_list_fail_open (cfg : AccessConfig) (u : UserInfo) (idx : String) :
    (isIndexPatternAllowed cfg none idx = true) ∧
    (u.role = "admin" → isIndexPatternAllowed cfg (some u) idx = true) ∧
    (u.role ≠ "admin" → trimChars u.username ≠ "" → cfg.userIndexAccess (trimChars u.username) ≠ [] →
        getAllowedIndexPatterns cfg (some u) = cfg.userIndexAccess (trimChars u.username)) ∧
    (u.role ≠ "admin" → cfg.userIndexAccess (trimChars u.username) = [] →
        getAllowedIndexPatterns cfg (some u) = u.teams.flatMap cfg.teamIndexAccess) ∧
    (u.role ≠ "admin" → getAllowedIndexPatterns cfg (some u) = [] →
        isIndexPatternAllowed cfg (some u) idx = true) ∧
    (u.role ≠ "admin" → getAllowedIndexPatterns cfg (some u) ≠ [] →
        (isIndexPatternAllowed cfg (some u) idx = true ↔
          ∃ p ∈ getAllowedIndexPatterns cfg (some u), wildcardMatches p idx = true)) ∧
    (wildcardMatches "logs-*" "logs-app" = true) ∧
    (wildcardMatches "logs-*" "other-*" = false) := by
  refine ⟨rfl, ?_, ?_, ?_, ?_, ?_, by decide, by decide⟩
  · intro h
    simp [isIndexPatternAllowed, h]
  · intro h hname hlist
    simp [getAllowedIndexPatterns, h, hname, hlist]
  · intro h hlist
    simp [getAllowedIndexPatterns, h, hlist]
  · intro h hempty
    simp [isIndexPatternAllowed, h, hempty]
  · intro h hne
    simp only [isIndexPatternAllowed, if_neg h]
    rw [if_neg (by simpa [List.length_eq_zero] using hne)]
    simp [List.any_eq_true]

/-- Witness for C3: a viewer with no configured patterns is allowed on
every index pattern, and one restricted to `logs-*` is allowed on
`logs-app` but not on `other-*`. -/
theorem index_allow_list_fail_open_witness :
    isIndexPatternAllowed ⟨fun _ => [], fun _ => []⟩
        (some ⟨"id0", "bob", "viewer", ["team-a"]⟩) "any-index" = true ∧
    isIndexPatternAllowed ⟨fun name => if name = "alice" then ["logs-*"] else [], fun _ => []⟩
        (some ⟨"id1", "alice", "viewer", []⟩) "logs-app" = true ∧
    isIndexPatternAllowed ⟨fun name => if name = "alice" then ["logs-*"] else [], fun _ => []⟩
        (some ⟨"id1", "alice", "viewer", []⟩) "other-*" = false := by
  refine ⟨?_, ?_, ?_⟩
  · exact (index_allow_list_fail_open ⟨fun _ => [], fun _ => []⟩
      ⟨"id0", "bob", "viewer", ["team-a"]⟩ "any-index").2.2.2.2.1 (by decide) rfl
  · exact ((index_allow_list_fail_open ⟨fun name => if name = "alice" then ["logs-*"] else [],
      fun _ => []⟩ ⟨"id1", "alice", "viewer", []⟩ "logs-app").2.2.2.2.2.1 (by decide)
      (by decide)).mpr ⟨"logs-*", by decide, by decide⟩
  · decide

lemma getUserFeatures_foldl (toggles : String → Option Features) :
    ∀ (teams : List String) (acc : Features),
      teams.foldl (fun acc team => orFeatures acc (getTeamToggle toggles team)) acc =
        ⟨acc.exports || teams.any fun t => (getTeamToggle toggles t).exports,
         acc.bookmarks || teams.any fun t => (getTeamToggle toggles t).bookmarks,
         acc.rules || teams.any fun t => (getTeamToggle toggles t).rules,
         acc.queryBuilder || teams.any fun t => (getTeamToggle toggles t).queryBuilder,
         acc.limitTo7Days || teams.any fun t => (getTeamToggle toggles t).limitTo7Days,
         acc.piiUnmasked || teams.any fun t => (getTeamToggle toggles t).piiUnmasked,
         acc.showFullResults || teams.any fun t => (getTeamToggle toggles t).showFullResults⟩ := by
  intro teams
  induction teams with
  | nil => intro acc; simp
  | cons t rest ih =>
    intro acc
    rw [List.foldl_cons, ih]
    simp [orFeatures, Bool.or_assoc]

/-- C4 (amended): for every authenticated caller — admins included —
each feature flag is the OR of that flag across the caller's teams, with
the restrictive `limitTo7Days` OR-combined exactly like the permissive
flags; only auth-disabled (anonymous) requests receive the
all-permissive defaults. -/
theorem effective_features_or_combined (toggles : String → Option Features) (u : UserInfo) :
    ((getUserFeatures true toggles (some u)).exports
        = u.teams.any fun t => (getTeamToggle toggles t).exports) ∧
    ((getUserFeatures true toggles (some u)).bookmarks
        = u.teams.any fun t => (getTeamToggle toggles t).bookmarks) ∧
    ((getUserFeatures true toggles (some u)).rules
        = u.teams.any fun t => (getTeamToggle toggles t).rules) ∧
    ((getUserFeatures true toggles (some u)).queryBuilder
        = u.teams.any fun t => (getTeamToggle toggles t).queryBuilder) ∧
    ((getUserFeatures true toggles (some u)).limitTo7Days
        = u.teams.any fun t => (getTeamToggle toggles t).limitTo7Days) ∧
    ((getUserFeatures true toggles (some u)).piiUnmasked
        = u.teams.any fun t => (getTeamToggle toggles t).piiUnmasked) ∧
    ((getUserFeatures true toggles (some u)).showFullResults
        = u.teams.any fun t => (getTeamToggle toggles t).showFullResults) ∧
    (∀ user, getUserFeatures false toggles user = defaultToggles) := by
  have h := getUserFeatures_foldl toggles u.teams emptyFeatures
  simp only [getUserFeatures, Bool.not_true, Bool.false_eq_true, if_false, h]
  refine ⟨rfl, rfl, rfl, rfl, rfl, rfl, rfl, fun user => rfl⟩

/-- Counterexample for C4: the claim's "admins get all-permissive
defaults" fails — an admin belonging to a team whose toggles are
restrictive receives that team's OR-combined flags, not the permissive
defaults. -/
theorem admin_features_not_all_permissive :
    (UserInfo.role ⟨"id9", "root", "admin", ["ops"]⟩ = "admin") ∧
    getUserFeatures true
        (fun t => if t = "ops" then some ⟨false, false, false, false, true, false, false⟩ else none)
        (some ⟨"id9", "root", "admin", ["ops"]⟩)
      = ⟨false, false, false, false, true, false, false⟩ ∧
    (⟨false, false, false, false, true, false, false⟩ : Features) ≠ defaultToggles := by
  exact ⟨rfl, rfl, by decide⟩

/-- Counterexample for C5: the claim's "a scalar `bool.filter` is
converted to a two-element array" fails for a falsy scalar — a `false`
filter is replaced by the one-element recent-filter array, dropping the
original scalar. -/
theorem recent_filter_falsy_scalar_dropped :
    applyRecentOnlyFilterToQuery (.str "recent")
        (some (.obj [("bool", .obj [("filter", .bool false)])])) =
      .obj [("bool", .obj [("filter", .arr [.str "recent"])])] ∧
    Json.obj [("bool", .obj [("filter", .arr [.str "recent"])])] ≠
      .obj [("bool", .obj [("filter", .arr [.bool false, .str "recent"])])] := by
  exact ⟨rfl, by simp⟩

/-- C5 (amended): merging the recent-only filter preserves the caller's
query — a non-object query becomes `{bool:{filter:[recent]}}`, an array
`bool.filter` gets the recent filter appended (count + 1), a truthy
scalar `bool.filter` becomes the two-element array (a falsy one is
replaced by `[recent]`), and a query without a `bool` member is wrapped
under `must` with the filter added. -/
theorem recent_filter_merge_preserves_query (R : Json) (q : Json)
    (fields bf : List (String × Json)) (xs : List Json) (v : Json) :
    (applyRecentOnlyFilterToQuery R none = .obj [("bool", .obj [("filter", .arr [R])])]) ∧
    ((q.truthy && q.isObjectType) = false →
        applyRecentOnlyFilterToQuery R (some q) = .obj [("bool", .obj [("filter", .arr [R])])]) ∧
    (getField fields "bool" = some (.obj bf) → getField bf "filter" = some (.arr xs) →
        applyRecentOnlyFilterToQuery R (some (.obj fields)) =
          .obj (setField fields "bool" (.obj (setField bf "filter" (.arr (xs ++ [R]))))) ∧
        (xs ++ [R]).length = xs.length + 1) ∧
    (getField fields "bool" = some (.obj bf) → getField bf "filter" = some v →
        (∀ ys, v ≠ .arr ys) → v.truthy = true →
        applyRecentOnlyFilterToQuery R (some (.obj fields)) =
          .obj (setField fields "bool" (.obj (setField bf "filter" (.arr [v, R]))))) ∧
    (getField fields "bool" = some (.obj bf) → getField bf "filter" = some v →
        v.truthy = false →
        applyRecentOnlyFilterToQuery R (some (.obj fields)) =
          .obj (setField fields "bool" (.obj (setField bf "filter" (.arr [R]))))) ∧
    (getField fields "bool" = none →
        applyRecentOnlyFilterToQuery R (some (.obj fields)) =
          .obj [("bool", .obj [("must", .arr [.obj fields]), ("filter", .arr [R])])]) := by
  refine ⟨rfl, ?_, ?_, ?_, ?_, ?_⟩
  · intro h
    cases q <;> simp_all [applyRecentOnlyFilterToQuery, Json.truthy, Json.isObjectType]
  · intro hb hf
    refine ⟨?_, by simp⟩
    simp [applyRecentOnlyFilterToQuery, hb, hf, Json.truthy, Json.isObjectType,
      boolSpread, mergeRecentIntoBool]
  · intro hb hf hnarr hvt
    simp only [applyRecentOnlyFilterToQuery, hb, Json.truthy, Json.isObjectType,
      Bool.and_self, Bool.not_true, boolSpread, mergeRecentIntoBool, hf]
    cases v with
    | arr ys => exact absurd rfl (hnarr ys)
    | null => simp [Json.truthy] at hvt
    | bool b => cases b <;> simp_all [Json.truthy]
    | num n => simp_all [Json.truthy]
    | str s => simp_all [Json.truthy]
    | obj fs => simp [Json.truthy] at hvt ⊢
  · intro hb hf hvf
    simp only [applyRecentOnlyFilterToQuery, hb, Json.truthy, Json.isObjectType,
      Bool.and_self, Bool.not_true, boolSpread, mergeRecentIntoBool, hf]
    cases v <;> simp_all [Json.truthy]
  · intro hb
    simp [applyRecentOnlyFilterToQuery, hb, Json.truthy, Json.isObjectType]

/-- Witness for C5: a query with a two-element `bool.filter` array keeps
both original filters and gains the recent filter at the end. -/
theorem recent_filter_merge_preserves_query_witness :
    applyRecentOnlyFilterToQuery (.str "R")
        (some (.obj [("bool", .obj [("filter",
          .arr [.str "orig1", .str "orig2"])])])) =
      .obj [("bool", .obj [("filter", .arr [.str "orig1", .str "orig2", .str "R"])])] := by
  have h := (recent_filter_merge_preserves_query (.str "R") .null
    [("bool", .obj [("filter", .arr [.str "orig1", .str "orig2"])])]
    [("filter", .arr [.str "orig1", .str "orig2"])]
    [.str "orig1", .str "orig2"] .null).2.2.1 rfl rfl
  rw [h.1]
  rfl

lemma searchCacheKey_data (u idx rules body : String) (b : Bool) :
    (searchCacheKey u idx b rules body).data =
      "search".data ++ '|' :: (u.data ++ '|' :: (idx.data ++ '|' ::
        ((piiFlagStr b).data ++ '|' :: (rules.data ++ '|' :: body.data)))) := by
  have hp : ("|" : String).data = ['|'] := rfl
  simp [searchCacheKey, getCacheKey, String.data_append, hp, List.append_assoc]

lemma append_pipe_inj (l₁ : List Char) :
    ∀ l₂ r₁ r₂ : List Char, '|' ∉ l₁ → '|' ∉ l₂ →
      l₁ ++ '|' :: r₁ = l₂ ++ '|' :: r₂ → l₁ = l₂ ∧ r₁ = r₂ := by
  induction l₁ with
  | nil =>
    intro l₂ r₁ r₂ h1 h2 h
    cases l₂ with
    | nil => simpa using h
    | cons c l₂' =>
      rw [List.nil_append, List.cons_append] at h
      injection h with hc ht
      subst hc
      exact absurd (List.mem_cons_self _ _) h2
  | cons c l₁' ih =>
    intro l₂ r₁ r₂ h1 h2 h
    cases l₂ with
    | nil =>
      rw [List.cons_append, List.nil_append] at h
      injection h with hc ht
      subst hc
      exact absurd (List.mem_cons_self _ _) h1
    | cons d l₂' =>
      rw [List.cons_append, List.cons_append] at h
      injection h with hcd ht
      subst hcd
      have h1' : '|' ∉ l₁' := fun hm => h1 (List.mem_cons_of_mem _ hm)
      have h2' : '|' ∉ l₂' := fun hm => h2 (List.mem_cons_of_mem _ hm)
      obtain ⟨he, hr⟩ := ih l₂' r₁ r₂ h1' h2' ht
      exact ⟨by rw [he], hr⟩

lemma searchCacheKey_inj (u₁ u₂ idx rules₁ rules₂ body : String) (b₁ b₂ : Bool)
    (hu₁ : '|' ∉ u₁.data) (hu₂ : '|' ∉ u₂.data)
    (heq : searchCacheKey u₁ idx b₁ rules₁ body = searchCacheKey u₂ idx b₂ rules₂ body) :
    u₁ = u₂ ∧ b₁ = b₂ ∧ rules₁ = rules₂ := by
  have hd := congrArg String.data heq
  rw [searchCacheKey_data, searchCacheKey_data] at hd
  have h1 := List.append_cancel_left hd
  injection h1 with _ h2
  obtain ⟨hu, h3⟩ := append_pipe_inj u₁.data u₂.data _ _ hu₁ hu₂ h2
  have h4 := List.append_cancel_left h3
  injection h4 with _ h5
  refine ⟨String.ext hu, ?_⟩
  have e1 : ("pii-unmasked" : String).data =
      ['p', 'i', 'i', '-', 'u', 'n', 'm', 'a', 's', 'k', 'e', 'd'] := rfl
  have e2 : ("pii-masked" : String).data =
      ['p', 'i', 'i', '-', 'm', 'a', 's', 'k', 'e', 'd'] := rfl
  cases b₁ <;> cases b₂
  · refine ⟨rfl, ?_⟩
    have h6 := List.append_cancel_left h5
    injection h6 with _ h7
    exact String.ext (List.append_cancel_right h7)
  · exfalso
    simp only [piiFlagStr, if_true, if_false, e1, e2, List.cons_append] at h5
    simp at h5
  · exfalso
    simp only [piiFlagStr, if_true, if_false, e1, e2, List.cons_append] at h5
    simp at h5
  · refine ⟨rfl, ?_⟩
    have h6 := List.append_cancel_left h5
    injection h6 with _ h7
    exact String.ext (List.append_cancel_right h7)

lemma mapLookup_mapSet_ne (c : Cache) (k k' : String) (e : CacheEntry) (hne : k ≠ k') :
    mapLookup (mapSet c k' e) k = mapLookup c k := by
  induction c with
  | nil => simp [mapSet, mapLookup, Ne.symm hne]
  | cons hd tl ih =>
    obtain ⟨a, ea⟩ := hd
    by_cases ha : a = k'
    · subst ha
      simp [mapSet, mapLookup, Ne.symm hne]
    · simp only [mapSet, if_neg ha, mapLookup]
      by_cases hak : a = k
      · simp [hak]
      · simp [hak, ih]

lemma mem_map_fst_mapSet (k' : String) (e : CacheEntry) (x : String) :
    ∀ c : Cache, x ∈ (mapSet c k' e).map Prod.fst ↔ x ∈ c.map Prod.fst ∨ x = k' := by
  intro c
  induction c with
  | nil => simp [mapSet]
  | cons hd tl ih =>
    obtain ⟨a, ea⟩ := hd
    by_cases ha : a = k'
    · subst ha
      simp only [mapSet, eq_self_iff_true, if_true, List.map_cons, List.mem_cons]
      tauto
    · simp only [mapSet, if_neg ha, List.map_cons, List.mem_cons, ih]
      tauto

lemma nodup_mapSet (c : Cache) (k' : String) (e : CacheEntry)
    (h : (c.map Prod.fst).Nodup) : ((mapSet c k' e).map Prod.fst).Nodup := by
  induction c with
  | nil => simp [mapSet]
  | cons hd tl ih =>
    obtain ⟨a, ea⟩ := hd
    simp only [List.map_cons, List.nodup_cons] at h
    by_cases ha : a = k'
    · subst ha
      simp only [mapSet, eq_self_iff_true, if_true, List.map_cons, List.nodup_cons]
      exact h
    · simp only [mapSet, if_neg ha, List.map_cons, List.nodup_cons]
      refine ⟨?_, ih h.2⟩
      rw [mem_map_fst_mapSet]
      rintro (hm | rfl)
      · exact h.1 hm
      · exact ha rfl

lemma mapLookup_eq_none_of_not_mem (k : String) :
    ∀ c : Cache, k ∉ c.map Prod.fst → mapLookup c k = none := by
  intro c
  induction c with
  | nil => intro _; rfl
  | cons hd tl ih =>
    obtain ⟨a, ea⟩ := hd
    intro h
    simp only [List.map_cons, List.mem_cons] at h
    push_neg at h
    simp only [mapLookup, if_neg (Ne.symm h.1)]
    exact ih h.2

lemma cacheGet_fst_eq_of_lookup_eq (ttl : Nat) (now : Int) (c₁ c₂ : Cache) (k : String)
    (h : mapLookup c₁ k = mapLookup c₂ k) :
    (cacheGet ttl now c₁ k).fst = (cacheGet ttl now c₂ k).fst := by
  unfold cacheGet
  by_cases h0 : ttl = 0
  · simp [h0]
  · rw [if_neg h0, if_neg h0, h]
    cases mapLookup c₂ k with
    | none => rfl
    | some e => by_cases he : now > e.expiresAt <;> simp [he]

lemma cacheGet_fst_after_set (ttl maxE : Nat) (now now' : Int) (c : Cache) (k k' : String)
    (v : Json) (hnd : (c.map Prod.fst).Nodup) (hne : k ≠ k') :
    (cacheGet ttl now (cacheSet ttl maxE now' c k' v) k).fst = (cacheGet ttl now c k).fst ∨
    (cacheGet ttl now (cacheSet ttl maxE now' c k' v) k).fst = none := by
  unfold cacheSet
  by_cases h0 : ttl = 0
  · rw [if_pos h0]
    exact Or.inl rfl
  · rw [if_neg h0]
    simp only
    by_cases hlen : (mapSet c k' ⟨v, now' + ttl⟩).length > maxE
    · rw [if_pos hlen]
      cases hn : mapSet c k' (⟨v, now' + ttl⟩ : CacheEntry) with
      | nil =>
        right
        simp [cacheGet, if_neg h0, mapLookup]
      | cons hd tl =>
        obtain ⟨hk, he⟩ := hd
        by_cases hhd : hk = k
        · right
          have hnodup : ((mapSet c k' (⟨v, now' + ttl⟩ : CacheEntry)).map Prod.fst).Nodup :=
            nodup_mapSet c k' _ hnd
          rw [hn] at hnodup
          simp only [List.map_cons, List.nodup_cons] at hnodup
          have hknotin : k ∉ tl.map Prod.fst := hhd ▸ hnodup.1
          have hnone : mapLookup tl k = none := mapLookup_eq_none_of_not_mem k tl hknotin
          simp [cacheGet, if_neg h0, hnone]
        · left
          have h2 : mapLookup (mapSet c k' (⟨v, now' + ttl⟩ : CacheEntry)) k = mapLookup c k :=
            mapLookup_mapSet_ne c k k' _ hne
          rw [hn] at h2
          simp only [mapLookup, if_neg hhd] at h2
          exact cacheGet_fst_eq_of_lookup_eq ttl now tl c k h2
    · rw [if_neg hlen]
      exact Or.inl (cacheGet_fst_eq_of_lookup_eq ttl now _ c k
        (mapLookup_mapSet_ne c k k' _ hne))

/-- C1: two search requests over the same index pattern and body that
differ in user id, in effective PII variant, or in the serialized PII
rule list compute distinct response-cache keys (user ids contain no
`|`, as the system generates them), and storing under one key never
changes what lookups under the other key can return — at most it evicts
it, never serving the other caller's entry. -/
theorem cache_key_isolation (u₁ u₂ idx rules₁ rules₂ body : String) (b₁ b₂ : Bool)
    (hu₁ : '|' ∉ u₁.data) (hu₂ : '|' ∉ u₂.data)
    (hdiff : u₁ ≠ u₂ ∨ b₁ ≠ b₂ ∨ rules₁ ≠ rules₂)
    (ttlMs maxEntries : Nat) (now now' : Int) (cache : Cache) (v : Json)
    (hnd : (cache.map Prod.fst).Nodup) :
    searchCacheKey u₁ idx b₁ rules₁ body ≠ searchCacheKey u₂ idx b₂ rules₂ body ∧
    ((cacheGet ttlMs now
        (cacheSet ttlMs maxEntries now' cache (searchCacheKey u₂ idx b₂ rules₂ body) v)
        (searchCacheKey u₁ idx b₁ rules₁ body)).fst =
      (cacheGet ttlMs now cache (searchCacheKey u₁ idx b₁ rules₁ body)).fst ∨
     (cacheGet ttlMs now
        (cacheSet ttlMs maxEntries now' cache (searchCacheKey u₂ idx b₂ rules₂ body) v)
        (searchCacheKey u₁ idx b₁ rules₁ body)).fst = none) := by
  have hkeys : searchCacheKey u₁ idx b₁ rules₁ body ≠ searchCacheKey u₂ idx b₂ rules₂ body := by
    intro heq
    obtain ⟨hu, hb, hr⟩ := searchCacheKey_inj u₁ u₂ idx rules₁ rules₂ body b₁ b₂ hu₁ hu₂ heq
    rcases hdiff with h | h | h
    · exact h hu
    · exact h hb
    · exact h hr
  exact ⟨hkeys, cacheGet_fst_after_set ttlMs maxEntries now now' cache _ _ v hnd hkeys⟩

/-- Witness for C1: distinct user ids (and likewise the two PII
variants) yield distinct keys for the identical index and body, and
priming the cache under one key does not change the other's lookup. -/
theorem cache_key_isolation_witness :
    searchCacheKey "user-a" "logs-*" false "[]" "{}" ≠
      searchCacheKey "user-b" "logs-*" false "[]" "{}" ∧
    ((cacheGet 15000 0
        (cacheSet 15000 500 0 [] (searchCacheKey "user-b" "logs-*" false "[]" "{}") (.str "v"))
        (searchCacheKey "user-a" "logs-*" false "[]" "{}")).fst =
      (cacheGet 15000 0 [] (searchCacheKey "user-a" "logs-*" false "[]" "{}")).fst ∨
     (cacheGet 15000 0
        (cacheSet 15000 500 0 [] (searchCacheKey "user-b" "logs-*" false "[]" "{}") (.str "v"))
        (searchCacheKey "user-a" "logs-*" false "[]" "{}")).fst = none) :=
  cache_key_isolation "user-a" "user-b" "logs-*" "[]" "[]" "{}" false false
    (by decide) (by decide) (Or.inl (by decide)) 15000 500 0 0 [] (.str "v") (by simp)

lemma foldl_add_eq_sum (f : Nat → Nat) :
    ∀ (l : List Nat) (a : Nat), l.foldl (fun acc i => acc + f i) a = a + (l.map f).sum := by
  intro l
  induction l with
  | nil => intro a; simp
  | cons x xs ih =>
    intro a
    rw [List.foldl_cons, ih, List.map_cons, List.sum_cons]
    omega

/-- C7: for every window, a rule with positive threshold fires iff the
sum of its per-hour query-match counts over `ceil(windowMinutes/60)`
trailing hour buckets — the bucket count is exactly the ceiling
division, so a 90-minute window reads two full hourly buckets —
strictly exceeds the threshold AND no previous fire lies within
`windowMinutes` of now (a zero window falls back to 60 as in the code);
hence for a 60-minute window a fire at T suppresses the re-send at
T+30min but not at T+61min when the count still exceeds. -/
theorem alert_dedup_window (hourKeyOf : Nat → String) (m : Metrics) (state : RulesState)
    (r : AlertRule) (now lastT : Nat)
    (hq : trimChars r.query ≠ "") (ht : 1 ≤ r.threshold) :
    (ruleShouldFire hourKeyOf m now state r = true ↔
      ((getQueryCountSince hourKeyOf m (now / 3600000) (trimChars r.query)
          (if r.windowMinutes = 0 then 60 else r.windowMinutes) : Int) > r.threshold ∧
        ∀ last, state r.id = some last →
          (if r.windowMinutes = 0 then 60 else r.windowMinutes) * 60 * 1000 ≤ now - last)) ∧
    (∀ q nh w, getQueryCountSince hourKeyOf m nh q w =
        ((List.range ((w + 59) / 60)).map fun i =>
          m.hourlyQueries (hourKeyOf (nh - i)) q).sum) ∧
    (∀ w : Nat, 0 < w → w ≤ 60 * ((w + 59) / 60) ∧ 60 * ((w + 59) / 60) < w + 60) ∧
    (∀ q nh, getQueryCountSince hourKeyOf m nh q 90 =
        m.hourlyQueries (hourKeyOf nh) q + m.hourlyQueries (hourKeyOf (nh - 1)) q) ∧
    (∀ q nh, getQueryCountSince hourKeyOf m nh q 60 = m.hourlyQueries (hourKeyOf nh) q) ∧
    (r.windowMinutes = 60 → state r.id = some lastT → now = lastT + 30 * 60 * 1000 →
      ruleShouldFire hourKeyOf m now state r = false) ∧
    (r.windowMinutes = 60 → state r.id = some lastT → now = lastT + 61 * 60 * 1000 →
      (ruleShouldFire hourKeyOf m now state r = true ↔
        (getQueryCountSince hourKeyOf m (now / 3600000) (trimChars r.query) 60 : Int) >
          r.threshold)) := by
  have hguard : ¬(trimChars r.query = "" ∨ r.threshold < 1) := by
    push_neg
    exact ⟨hq, by omega⟩
  refine ⟨?_, ?_, ?_, ?_, ?_, ?_, ?_⟩
  · simp only [ruleShouldFire, if_neg hguard]
    norm_num
    cases hst : state r.id with
    | none => simp [hst]
    | some t =>
      simp only [hst, Bool.and_eq_true, decide_eq_true_eq, Bool.not_eq_true',
        decide_eq_false_iff_not, not_lt]
      intro _
      constructor
      · intro h2 last hl
        injection hl with hl
        exact hl ▸ h2
      · intro h2
        exact h2 t rfl
  · intro q nh w
    simp [getQueryCountSince, foldl_add_eq_sum]
  · intro w hw0
    omega
  · intro q nh
    simp [getQueryCountSince, List.range_succ]
  · intro q nh
    simp [getQueryCountSince, List.range_succ]
  · intro hw hst hnow
    subst hnow
    have hlt : lastT + 30 * 60 * 1000 - lastT < 60 * 60 * 1000 := by omega
    simp [ruleShouldFire, hw, if_neg hguard, hst, hlt]
  · intro hw hst hnow
    subst hnow
    have hge : ¬(lastT + 61 * 60 * 1000 - lastT < 60 * 60 * 1000) := by omega
    simp [ruleShouldFire, hw, if_neg hguard, hst, hge]

/-- Witness for C7: a rule with threshold 3 and window 60 whose query
matched 5 times this hour does not re-fire 30 minutes after its last
fire but fires again 61 minutes after it, and a 90-minute window sums
exactly the two trailing hourly buckets (5 + 5 = 10). -/
theorem alert_dedup_window_witness :
    ruleShouldFire (fun _ => "h")
        ⟨fun _ => none, fun _ q => if q = "err" then 5 else 0, fun _ => none, []⟩
        (7200000 + 30 * 60 * 1000)
        (fun id => if id = "r1" then some 7200000 else none)
        ⟨"r1", "rule one", "err", 3, 60, "", ""⟩ = false ∧
    ruleShouldFire (fun _ => "h")
        ⟨fun _ => none, fun _ q => if q = "err" then 5 else 0, fun _ => none, []⟩
        (7200000 + 61 * 60 * 1000)
        (fun id => if id = "r1" then some 7200000 else none)
        ⟨"r1", "rule one", "err", 3, 60, "", ""⟩ = true ∧
    getQueryCountSince (fun _ => "h")
        ⟨fun _ => none, fun _ q => if q = "err" then 5 else 0, fun _ => none, []⟩
        5 "err" 90 = 10 := by
  refine ⟨?_, ?_, ?_⟩
  · exact (alert_dedup_window (fun _ => "h")
      ⟨fun _ => none, fun _ q => if q = "err" then 5 else 0, fun _ => none, []⟩
      (fun id => if id = "r1" then some 7200000 else none)
      ⟨"r1", "rule one", "err", 3, 60, "", ""⟩ (7200000 + 30 * 60 * 1000) 7200000
      (by decide) (by decide)).2.2.2.2.2.1 rfl rfl rfl
  · exact ((alert_dedup_window (fun _ => "h")
      ⟨fun _ => none, fun _ q => if q = "err" then 5 else 0, fun _ => none, []⟩
      (fun id => if id = "r1" then some 7200000 else none)
      ⟨"r1", "rule one", "err", 3, 60, "", ""⟩ (7200000 + 61 * 60 * 1000) 7200000
      (by decide) (by decide)).2.2.2.2.2.2 rfl rfl rfl).mpr (by decide)
  · exact ((alert_dedup_window (fun _ => "h")
      ⟨fun _ => none, fun _ q => if q = "err" then 5 else 0, fun _ => none, []⟩
      (fun id => if id = "r1" then some 7200000 else none)
      ⟨"r1", "rule one", "err", 3, 60, "", ""⟩ 0 0
      (by decide) (by decide)).2.2.2.1 "err" 5).trans (by decide)

/-- Counterexample for C8: when the email settings are missing,
`sendAlertEmail` resolves to `false` without dispatching any message,
yet the scheduler still advances `lastTriggeredAt[ruleId]` to now — the
claim's "left unchanged when the send does not succeed" fails on that
path. -/
theorem alert_trigger_update_on_skipped_send :
    sendAlertEmailResult ⟨"", "", ""⟩
        (effectiveTo ⟨"", "", ""⟩ ⟨"r1", "rule one", "err", 3, 60, "", ""⟩) true = .ok false ∧
    (fun (_ : String) => (none : Option Nat)) "r1" = none ∧
    runRuleChecks (fun _ => "h")
        ⟨fun _ => none, fun _ q => if q = "err" then 5 else 0, fun _ => none, []⟩
        1000000 ⟨"", "", ""⟩ (fun _ => true)
        [⟨"r1", "rule one", "err", 3, 60, "", ""⟩] (fun _ => none) "r1" = some 1000000 := by
  exact ⟨rfl, rfl, rfl⟩

/-- C8 (amended): `lastTriggeredAt[ruleId]` is advanced to now whenever
a fired rule's send attempt resolves without throwing — on a successful
send and also on the skipped send when email settings are missing; only
a thrown transport error leaves it unchanged (allowing a retry next
cycle); other rules' entries are never touched, and the remaining rules
are always evaluated from the stepped state. -/
theorem alert_trigger_state_update (hourKeyOf : Nat → String) (m : Metrics) (now : Nat)
    (cfg : EmailConfig) (transportOk : String → Bool) (state : RulesState)
    (r : AlertRule) (rules : List AlertRule) :
    (ruleShouldFire hourKeyOf m now state r = true →
      sendAlertEmailResult cfg (effectiveTo cfg r) (transportOk r.id) = .error () →
      runRuleStep hourKeyOf m now cfg transportOk state r = state) ∧
    (∀ b, ruleShouldFire hourKeyOf m now state r = true →
      sendAlertEmailResult cfg (effectiveTo cfg r) (transportOk r.id) = .ok b →
      (runRuleStep hourKeyOf m now cfg transportOk state r) r.id = some now ∧
      ∀ id, id ≠ r.id → (runRuleStep hourKeyOf m now cfg transportOk state r) id = state id) ∧
    (ruleShouldFire hourKeyOf m now state r = false →
      runRuleStep hourKeyOf m now cfg transportOk state r = state) ∧
    (runRuleChecks hourKeyOf m now cfg transportOk (r :: rules) state =
      runRuleChecks hourKeyOf m now cfg transportOk rules
        (runRuleStep hourKeyOf m now cfg transportOk state r)) := by
  refine ⟨?_, ?_, ?_, rfl⟩
  · intro hfire hsend
    simp [runRuleStep, hfire, hsend]
  · intro b hfire hsend
    refine ⟨?_, ?_⟩
    · simp [runRuleStep, hfire, hsend]
    · intro id hid
      simp [runRuleStep, hfire, hsend, hid]
  · intro hfire
    simp [runRuleStep, hfire]

/-- Witness for C8 (amended): a thrown transport send leaves the
de-dup state unchanged for the fired rule. -/
theorem alert_trigger_state_update_witness :
    runRuleStep (fun _ => "h")
        ⟨fun _ => none, fun _ q => if q = "err" then 5 else 0, fun _ => none, []⟩
        1000000 ⟨"smtp.example", "ops@example", "noreply@example"⟩ (fun _ => false)
        (fun _ => none) ⟨"r1", "rule one", "err", 3, 60, "", ""⟩ = (fun _ => none) :=
  (alert_trigger_state_update (fun _ => "h")
    ⟨fun _ => none, fun _ q => if q = "err" then 5 else 0, fun _ => none, []⟩
    1000000 ⟨"smtp.example", "ops@example", "noreply@example"⟩ (fun _ => false)
    (fun _ => none) ⟨"r1", "rule one", "err", 3, 60, "", ""⟩ []).1 rfl rfl

/-- C9: an export whose requested size exceeds the configured ceiling
never reaches the try block: zero upstream search-engine calls, no
export metric, no streaming; and when the request passes the earlier
auth/feature/index gates the handler's decision is the 400 size
rejection. -/
theorem export_size_ceiling (authOn : Bool) (toggles : String → Option Features)
    (access : AccessConfig) (user : Option UserInfo) (idx : String)
    (size maxExportSize : Int) (hsize : size > maxExportSize) :
    (exportUpstreamSearches
        (exportDecision authOn toggles access user idx (some size) maxExportSize) = 0 ∧
     exportRecordsMetrics
        (exportDecision authOn toggles access user idx (some size) maxExportSize) = false ∧
     exportStartsStreaming
        (exportDecision authOn toggles access user idx (some size) maxExportSize) = false) ∧
    ((authOn = false ∨
        (user.isSome ∧ (getUserFeatures authOn toggles user).exports = true ∧
          isIndexPatternAllowed access user idx = true)) →
      exportDecision authOn toggles access user idx (some size) maxExportSize = .sizeTooLarge ∧
      exportStatus
        (exportDecision authOn toggles access user idx (some size) maxExportSize) = some 400) := by
  have hnp : exportDecision authOn toggles access user idx (some size) maxExportSize ≠
      .proceed := by
    have hs : (some size).getD maxExportSize > maxExportSize := by simpa using hsize
    unfold exportDecision
    cases authOn with
    | false => cases user <;> simp [hsize]
    | true =>
      cases user with
      | none => simp
      | some u =>
        cases hfe : (getUserFeatures true toggles (some u)).exports <;>
          cases hia : isIndexPatternAllowed access (some u) idx <;>
            simp [hfe, hia, hsize]
  constructor
  · cases hd : exportDecision authOn toggles access user idx (some size) maxExportSize <;>
      simp_all [exportUpstreamSearches, exportRecordsMetrics, exportStartsStreaming]
  · rintro (hanon | ⟨husr, hexp, hallow⟩)
    · subst hanon
      have hdec : exportDecision false toggles access user idx (some size) maxExportSize =
          .sizeTooLarge := by
        unfold exportDecision
        simp [hsize]
      exact ⟨hdec, by rw [hdec]; rfl⟩
    · have hdec : exportDecision authOn toggles access user idx (some size) maxExportSize =
          .sizeTooLarge := by
        unfold exportDecision
        cases authOn with
        | false => simp [hsize]
        | true =>
          cases user with
          | none => simp at husr
          | some u => simp [hexp, hallow, hsize]
      exact ⟨hdec, by rw [hdec]; rfl⟩

/-- Witness for C9: with a ceiling of 10000, a request for 10001
records from an allowed caller is decided as the size rejection, with
status 400, no upstream call, no metric, no streaming. -/
theorem export_size_ceiling_witness :
    exportDecision false (fun _ => none) ⟨fun _ => [], fun _ => []⟩ none "logs" (some 10001)
        10000 = .sizeTooLarge ∧
    exportUpstreamSearches
        (exportDecision false (fun _ => none) ⟨fun _ => [], fun _ => []⟩ none "logs"
          (some 10001) 10000) = 0 := by
  have h := export_size_ceiling false (fun _ => none) ⟨fun _ => [], fun _ => []⟩ none "logs"
    10001 10000 (by omega)
  exact ⟨(h.2 (Or.inl rfl)).1, h.1.1⟩

/-- C10: a search request answered from the response cache leaves the
metrics store untouched — `recordSearch` is not invoked, so day buckets,
hourly counters and the activity feed are unchanged, no upstream call is
made, and the windowed counts the alert scheduler reads are identical. -/
theorem cache_hit_preserves_metrics (env : SearchEnv) (serialize : Option Json → String)
    (now : Int) (nowIso dayKey hourKey cutoff : String) (user : Option UserInfo)
    (indexPattern : String) (body : Option Json) (ip : String) (upstream v : Json)
    (m : Metrics) (cache : Cache)
    (hallow : isIndexPatternAllowed env.access user indexPattern = true)
    (hhit : (cacheGet env.cacheTtlMs now cache
        (searchRequestCacheKey env serialize cutoff user indexPattern body)).fst = some v) :
    (searchHandler env serialize now nowIso dayKey hourKey cutoff user indexPattern body ip
        upstream m cache).metrics = m ∧
    (searchHandler env serialize now nowIso dayKey hourKey cutoff user indexPattern body ip
        upstream m cache).upstreamCalls = 0 ∧
    (searchHandler env serialize now nowIso dayKey hourKey cutoff user indexPattern body ip
        upstream m cache).response = some v ∧
    (searchHandler env serialize now nowIso dayKey hourKey cutoff user indexPattern body ip
        upstream m cache).status = 200 ∧
    (∀ hourKeyOf nowHour q w,
      getQueryCountSince hourKeyOf
        (searchHandler env serialize now nowIso dayKey hourKey cutoff user indexPattern body ip
          upstream m cache).metrics nowHour q w =
      getQueryCountSince hourKeyOf m nowHour q w) := by
  have hcond : ¬(env.authOn ∧ user.isSome ∧
      ¬ isIndexPatternAllowed env.access user indexPattern) := by
    simp [hallow]
  have hout : searchHandler env serialize now nowIso dayKey hourKey cutoff user indexPattern
      body ip upstream m cache =
      ⟨200, some v,
        m, (cacheGet env.cacheTtlMs now cache
          (searchRequestCacheKey env serialize cutoff user indexPattern body)).snd, 0⟩ := by
    unfold searchHandler
    rw [if_neg hcond]
    rcases hcg : cacheGet env.cacheTtlMs now cache
        (searchRequestCacheKey env serialize cutoff user indexPattern body) with ⟨fst, snd⟩
    rw [hcg] at hhit
    simp only at hhit
    subst hhit
    simp only [hcg]
  rw [hout]
  exact ⟨rfl, rfl, rfl, rfl, fun _ _ _ _ => rfl⟩

/-- Witness for C10: with the matching entry primed in the cache, the
handler returns it and the metrics record is the very same one that
went in. -/
theorem cache_hit_preserves_metrics_witness :
    (searchHandler ⟨false, ⟨fun _ => [], fun _ => []⟩, fun _ => none, [], [], "[]", 15000, 500⟩
        (fun _ => "{}") 0 "" "" "" "" none "logs" none "" (.str "up")
        ⟨fun _ => none, fun _ _ => 0, fun _ => none, []⟩
        [("search|public|logs|pii-masked|[]|{}", ⟨.str "v", 1000⟩)]).metrics =
      ⟨fun _ => none, fun _ _ => 0, fun _ => none, []⟩ ∧
    (searchHandler ⟨false, ⟨fun _ => [], fun _ => []⟩, fun _ => none, [], [], "[]", 15000, 500⟩
        (fun _ => "{}") 0 "" "" "" "" none "logs" none "" (.str "up")
        ⟨fun _ => none, fun _ _ => 0, fun _ => none, []⟩
        [("search|public|logs|pii-masked|[]|{}", ⟨.str "v", 1000⟩)]).response =
      some (.str "v") := by
  have h := cache_hit_preserves_metrics
    ⟨false, ⟨fun _ => [], fun _ => []⟩, fun _ => none, [], [], "[]", 15000, 500⟩
    (fun _ => "{}") 0 "" "" "" "" none "logs" none "" (.str "up") (.str "v")
    ⟨fun _ => none, fun _ _ => 0, fun _ => none, []⟩
    [("search|public|logs|pii-masked|[]|{}", ⟨.str "v", 1000⟩)] rfl rfl
  exact ⟨h.1, h.2.2.1⟩

end LogsApp
